import Mathlib

/-!
Shallow embedding of `q2_alignment/_filter.py` (q2-alignment).

The embedding models:
  * a scikit-bio `TabularMSA` as a list of identified character rows plus a
    row-label index (`MSA`);
  * per-column character frequency dictionaries as association lists
    (`FreqVec`), keys in first-occurrence order as in a Python dict;
  * `_most_conserved`, `_compute_conservation_mask`, `_compute_gap_mask`,
    `_apply_mask`, `_compute_frequencies`, `mask`, `filter_positions` and
    `filter_seqs` as executable functions over these types.

Python floats are modelled as rationals.  Division is the total rational
division (division by zero yields 0); numpy's float division never raises,
and `x/0` comparisons (`nan > t` is false) coincide with the junk-zero
model whenever the threshold `t` is nonnegative, which the public API
restricts to anyway.

In-place effects are modelled explicitly: the `*_fx` versions of the three
public operations return the state of the input object after the call as
the first component of the result (only `filter_positions` contains a
mutating statement, `alignment.reassign_index(minter='id')`).
-/

deriving instance DecidableEq for Except

attribute [local semireducible] Rat.mul Rat.add Rat.sub Rat.inv

namespace Q2Alignment

/-- One row of an alignment: a scikit-bio `DNA` sequence with its `id`
metadata and its character data. -/
structure DNASeq where
  id : String
  chars : List Char
deriving DecidableEq, Repr

/-- A `TabularMSA`: the sequences plus the row-label index (a fresh MSA has
positional labels; `reassign_index(minter='id')` overwrites them with ids). -/
structure MSA where
  seqs : List DNASeq
  index : List String
deriving DecidableEq, Repr

/-- A sequence-type descriptor exposing its gap characters
(`sequence_dtype.gap_chars`). -/
structure SeqType where
  gap_chars : List Char
deriving DecidableEq, Repr

/-- `skbio.DNA`: its gap characters are `-` and `.`. -/
def DNAType : SeqType := ⟨['-', '.']⟩

/-- Whether a character is a gap character of the given sequence type. -/
def isGap (st : SeqType) (c : Char) : Bool := st.gap_chars.contains c

/-- `alignment.shape.position`: the common row length (0 when there are no
sequences). -/
def MSA.ncols (a : MSA) : ℕ :=
  match a.seqs with
  | [] => 0
  | s :: _ => s.chars.length

/-- Well-formedness invariant of a `TabularMSA`: every sequence has exactly
`ncols` characters (enforced by the scikit-bio constructor). -/
def MSA.WF (a : MSA) : Prop := ∀ s ∈ a.seqs, s.chars.length = a.ncols

instance (a : MSA) : Decidable a.WF := by
  unfold MSA.WF; infer_instance

/-- `alignment.reassign_index(minter='id')`: in-place reassignment of the
row labels to the sequence ids. -/
def reassign_index (a : MSA) : MSA := { a with index := a.seqs.map DNASeq.id }

/-- `alignment.loc[label]`: row lookup through the index. -/
def MSA.loc (a : MSA) (label : String) : Option DNASeq :=
  match a.index.findIdx? (fun l => l == label) with
  | none => none
  | some i => a.seqs[i]?

/-- The possible exceptions of `filter_positions`, one constructor per raise
site (plus the undocumented numpy `IndexError` escaping from
`np.argwhere(...)[0][0]` on an empty match). -/
inductive FilterErr where
  | valueErrorEndStart : FilterErr
  | keyErrorNotFound : String → FilterErr
  | valueErrorEndTooLarge : ℤ → ℕ → FilterErr
  | indexError : FilterErr
deriving DecidableEq, Repr

/-- The message text carried by each `filter_positions` exception. -/
def FilterErr.message : FilterErr → String
  | .valueErrorEndStart => "end must be greater than start"
  | .keyErrorNotFound rid => rid ++ " not found in alignment."
  | .valueErrorEndTooLarge e n =>
      "end position (" ++ toString e ++ ") is larger than the length " ++
        "of the reference sequence (" ++ toString n ++ ")"
  | .indexError => "index 0 is out of bounds for axis 0 with size 0"

/-- Whether the exception is one of the three documented error kinds of
`filter_positions` (invalid argument / not found); the numpy `IndexError`
is not documented. -/
def FilterErr.isDocumented : FilterErr → Bool
  | .indexError => false
  | _ => true

/-- `reference_array = np.zeros(ncols) - 1; reference_array[non_gaps] =
range(0, non_gaps.sum())`: position `j` holds the rank of `j` among the
non-gap positions when `non_gaps[j]`, and the `-1` sentinel otherwise. -/
def buildRefArray : List Bool → ℤ → List ℤ
  | [], _ => []
  | b :: rest, k =>
      if b then k :: buildRefArray rest (k + 1) else (-1) :: buildRefArray rest k

/-- `alignment[:, k:]`: drop the first `k` columns of every row (the row
index is preserved by column slicing). -/
def sliceFromCols (a : MSA) (k : ℕ) : MSA :=
  { seqs := a.seqs.map (fun s => { s with chars := s.chars.drop k }),
    index := a.index }

/-- `filter_positions(alignment, reference_id, start, end)`, with the state
of the input alignment object after the call as first component.  The input
is mutated by `reassign_index` unless the initial `end < start` check fails
first.  In the `end == count_non_gaps` branch the local name `alignment` is
rebound to the slice `alignment[:, aln_start:]`; in the `else` branch the
source computes `aln_end` but never slices, so the (reassigned) input object
itself is returned. -/
def filter_positions_fx (alignment : MSA) (reference_id : String)
    (start end_ : ℤ) : MSA × Except FilterErr MSA :=
  let start0 := start - 1
  if end_ < start0 then (alignment, .error .valueErrorEndStart)
  else
    let alignment1 := reassign_index alignment
    match alignment1.loc reference_id with
    | none => (alignment1, .error (.keyErrorNotFound reference_id))
    | some ref =>
      let non_gaps := ref.chars.map (fun ch => !(isGap DNAType ch))
      let count_non_gaps := non_gaps.count true
      if (count_non_gaps : ℤ) < end_ then
        (alignment1, .error (.valueErrorEndTooLarge end_ count_non_gaps))
      else
        let reference_array := buildRefArray non_gaps 0
        match reference_array.findIdx? (fun v => v == start0) with
        | none => (alignment1, .error .indexError)
        | some aln_start =>
          if end_ = (count_non_gaps : ℤ) then
            (alignment1, .ok (sliceFromCols alignment1 aln_start))
          else
            match reference_array.findIdx? (fun v => v == end_) with
            | none => (alignment1, .error .indexError)
            | some _ => (alignment1, .ok alignment1)

/-- The return value (or exception) of `filter_positions`. -/
def filter_positions (alignment : MSA) (reference_id : String)
    (start end_ : ℤ) : Except FilterErr MSA :=
  (filter_positions_fx alignment reference_id start end_).snd

/-! ### `filter_seqs` -/

/-- `seq.gaps().sum()`: the number of gap characters of a DNA sequence. -/
def gapCount (s : DNASeq) : ℕ := s.chars.countP (fun c => isGap DNAType c)

/-- `seq.degap()`: the sequence characters with the gap characters removed. -/
def degap (s : DNASeq) : List Char := s.chars.filter (fun c => !(isGap DNAType c))

/-- `seq.degap().frequencies(chars={'N'}, relative=True)['N']`: the relative
frequency of `N` among the ungapped characters. -/
def nFrac (s : DNASeq) : ℚ := ((degap s).count 'N' : ℚ) / ((degap s).length : ℚ)

/-- The length test of `filter_seqs`:
`seq_len < min_length or (max_length is not None and seq_len > max_length)`. -/
def lengthBad (min_length : ℕ) (max_length : Option ℕ) (seq_len : ℕ) : Bool :=
  decide (seq_len < min_length) ||
    (match max_length with
     | none => false
     | some m => decide (m < seq_len))

/-- The retention test of the `filter_seqs` loop body (`continue` ↔ `false`). -/
def keepSeq (max_gap_frequency max_n_frequency : ℚ) (min_length : ℕ)
    (max_length : Option ℕ) (s : DNASeq) : Bool :=
  if lengthBad min_length max_length s.chars.length then false
  else if max_gap_frequency < (gapCount s : ℚ) / (s.chars.length : ℚ) then false
  else if max_n_frequency < nFrac s then false
  else true

/-- `result[key] = value` on a `pd.Series`: replace the value at every
position already labelled `key`, or append a new entry at the end. -/
def seriesSet (l : List (String × DNASeq)) (key : String) (v : DNASeq) :
    List (String × DNASeq) :=
  if l.any (fun p => p.1 == key) then
    l.map (fun p => if p.1 == key then (key, v) else p)
  else l ++ [(key, v)]

/-- `filter_seqs(seqs, max_gap_frequency, max_n_frequency, min_length,
max_length)`: one forward pass over the stream, retained sequences stored
under their id in a `pd.Series`. -/
def filter_seqs (seqs : List DNASeq) (max_gap_frequency max_n_frequency : ℚ)
    (min_length : ℕ) (max_length : Option ℕ) : List (String × DNASeq) :=
  seqs.foldl
    (fun result s =>
      if keepSeq max_gap_frequency max_n_frequency min_length max_length s then
        seriesSet result s.id s
      else result)
    []

/-- `filter_seqs` with the state of the input stream elements after the call
(the loop only reads the sequences). -/
def filter_seqs_fx (seqs : List DNASeq) (max_gap_frequency max_n_frequency : ℚ)
    (min_length : ℕ) (max_length : Option ℕ) :
    List DNASeq × List (String × DNASeq) :=
  (seqs, filter_seqs seqs max_gap_frequency max_n_frequency min_length max_length)

/-! ### Frequencies, masks and `mask` -/

/-- A Python per-column frequency dictionary: keys in insertion
(first-occurrence) order, each with its value. -/
abbrev FreqVec : Type := List (Char × ℚ)

/-- The distinct elements of `l` not in `seen`, in first-occurrence order
(the key order of a Python dict built by counting). -/
def uniqueKeysAux : List Char → List Char → List Char
  | [], _ => []
  | c :: rest, seen =>
      if c ∈ seen then uniqueKeysAux rest seen
      else c :: uniqueKeysAux rest (c :: seen)

/-- The distinct elements of `l` in first-occurrence order. -/
def uniqueKeys (l : List Char) : List Char := uniqueKeysAux l []

/-- `column.frequencies()`: each character observed in the column mapped to
its count (scikit-bio returns integer counts; modelled as rationals). -/
def colFrequencies (col : List Char) : FreqVec :=
  (uniqueKeys col).map (fun ch => (ch, (col.count ch : ℚ)))

/-- `f.get(c, 0.0)` on a frequency dictionary. -/
def fget (f : FreqVec) (c : Char) : ℚ :=
  (((f : List (Char × ℚ)).find? (fun p => p.1 == c)).map Prod.snd).getD 0

/-- `{gap: del f[gap] for gap in gap_chars}`: the frequency dictionary with
every gap-character entry removed, remaining keys in their original order. -/
def removeGaps (f : FreqVec) (st : SeqType) : FreqVec :=
  (f : List (Char × ℚ)).filter (fun p => !(isGap st p.1))

/-- The values of a frequency dictionary, in key order. -/
def freqValues (f : FreqVec) : List ℚ := (f : List (Char × ℚ)).map Prod.snd

/-- `np.max` of a nonempty list (the guard in `_most_conserved` keeps the
empty case away from it; on `[]` this returns the junk value 0). -/
def npMax : List ℚ → ℚ
  | [] => 0
  | x :: xs => xs.foldl max x

/-- The body of the `_most_conserved` loop for one frequency vector: remove
the gap entries, return 0.0 when nothing remains, else `max/sum` of the
remaining values. -/
def mostConserved1 (f : FreqVec) (st : SeqType) : ℚ :=
  let frequency_values := freqValues (removeGaps f st)
  if frequency_values.length = 0 then 0
  else npMax frequency_values / frequency_values.sum

/-- `_most_conserved(frequencies, sequence_dtype)` with the only supported
`gap_mode='ignore'` (the invalid-argument branch for other modes is outside
every claim and not modelled). -/
def most_conserved (frequencies : List FreqVec) (sequence_dtype : SeqType) :
    List ℚ :=
  frequencies.map (fun f => mostConserved1 f sequence_dtype)

/-- `_compute_conservation_mask(frequencies, sequence_dtype,
min_conservation)`. -/
def compute_conservation_mask (frequencies : List FreqVec)
    (sequence_dtype : SeqType) (min_conservation : ℚ) : List Bool :=
  (most_conserved frequencies sequence_dtype).map
    (fun c => decide (c ≥ min_conservation))

/-- `np.sum([f.get(gc, 0.0) for gc in sequence_dtype.gap_chars])`. -/
def gapSum (f : FreqVec) (st : SeqType) : ℚ :=
  (st.gap_chars.map (fun gc => fget f gc)).sum

/-- `_compute_gap_mask(frequencies, sequence_dtype, max_gap_frequency)`:
`num_sequences` is read once from the first column's values. -/
def compute_gap_mask (frequencies : List FreqVec) (sequence_dtype : SeqType)
    (max_gap_frequency : ℚ) : List Bool :=
  let num_sequences := (freqValues (frequencies.headD [])).sum
  let gap_frequencies :=
    frequencies.map (fun f => gapSum f sequence_dtype / num_sequences)
  gap_frequencies.map (fun f => decide (f ≤ max_gap_frequency))

/-- numpy boolean indexing `xs[mask]`: the entries of `xs` at the positions
where `mask` is true (the two have equal length at every use site). -/
def selectMask {α : Type} : List α → List Bool → List α
  | _, [] => []
  | [], _ :: _ => []
  | x :: xs, b :: bs => if b then x :: selectMask xs bs else selectMask xs bs

/-- `_apply_mask(alignment, mask)` = `alignment[:, mask]`. -/
def apply_mask (a : MSA) (m : List Bool) : MSA :=
  { seqs := a.seqs.map (fun s => { s with chars := selectMask s.chars m }),
    index := a.index }

/-- The columns of a list of rows (`alignment.iter_positions()` order). -/
def colsOfRows (n : ℕ) (rows : List (List Char)) : List (List Char) :=
  (List.range n).map (fun j => rows.map (fun r => r.getD j ' '))

/-- The columns of an alignment. -/
def MSA.cols (a : MSA) : List (List Char) :=
  colsOfRows a.ncols (a.seqs.map DNASeq.chars)

/-- `_compute_frequencies(alignment)`: one frequency dictionary per column,
per-sequence metadata ignored. -/
def compute_frequencies (a : MSA) : List FreqVec := a.cols.map colFrequencies

/-! ### String formatting of the diagnostics -/

/-- Round to the nearest integer, ties to even (the rounding of Python's
fixed-point formatting). -/
def roundHalfEven (q : ℚ) : ℤ :=
  let f : ℤ := q.floor
  let r : ℚ := q - (f : ℚ)
  if r < 1 / 2 then f
  else if 1 / 2 < r then f + 1
  else if f % 2 = 0 then f else f + 1

/-- Render a natural number with at least two digits (`05`, `12`, `100`). -/
def twoDigits (k : ℕ) : String :=
  (if k < 10 then "0" else "") ++ toString k

/-- Python `'{percent:.2%}'.format(...)`: the fraction times 100, rendered
with two decimal digits (round half to even) and a trailing `%`. -/
def formatPercent (q : ℚ) : String :=
  let n : ℤ := roundHalfEven (q * 10000)
  (if n < 0 then "-" else "") ++
    toString (n.natAbs / 100) ++ "." ++ twoDigits (n.natAbs % 100) ++ "%"

/-- Python `'%f'` formatting: six decimal digits. -/
def formatFixed6 (q : ℚ) : String :=
  let n : ℤ := roundHalfEven (q * 1000000)
  (if n < 0 then "-" else "") ++
    toString (n.natAbs / 1000000) ++ "." ++
    (String.mk (List.replicate (6 - (toString (n.natAbs % 1000000)).length) '0')) ++
    toString (n.natAbs % 1000000)

/-- Whether `sub` occurs at the very beginning of `hay`. -/
def listStartsWith : List Char → List Char → Bool
  | _, [] => true
  | [], _ :: _ => false
  | a :: as, b :: bs => a == b && listStartsWith as bs

/-- Whether `sub` occurs contiguously anywhere inside `hay`. -/
def containsSub : List Char → List Char → Bool
  | hay, sub =>
    if listStartsWith hay sub then true
    else
      match hay with
      | [] => false
      | _ :: t => containsSub t sub

/-- Whether the string `sub` occurs inside the string `hay`. -/
def strContains (hay sub : String) : Bool := containsSub hay.data sub.data

/-! ### `mask` -/

/-- The `ValueError` message of `mask` when no column survives, built from
the two already-formatted percentages (`"No alignment positions remain
after filtering. The filter thresholds will need to be relaxed. %s of
positions were retained by the gap filter, and %s of positions were
retained by the conservation filter." % (str_passed_gap,
str_passed_conservation)`). -/
def noPositionsMsg (str_passed_gap str_passed_conservation : String) : String :=
  ("No alignment positions remain after filtering. The filter thresholds " ++
    "will need to be relaxed. ") ++
    ((str_passed_gap ++ " of positions were retained by the gap filter") ++
      (", and " ++
        ((str_passed_conservation ++
          " of positions were retained by the conservation filter") ++ ".")))

/-- The gap mask computed inside `mask` for a given alignment/threshold. -/
def maskGapMask (a : MSA) (max_gap_frequency : ℚ) : List Bool :=
  compute_gap_mask (compute_frequencies a) DNAType max_gap_frequency

/-- The conservation mask computed inside `mask`. -/
def maskConsMask (a : MSA) (min_conservation : ℚ) : List Bool :=
  compute_conservation_mask (compute_frequencies a) DNAType min_conservation

/-- `combined_mask = gap_mask & conservation_mask`. -/
def maskCombined (a : MSA) (max_gap_frequency min_conservation : ℚ) : List Bool :=
  List.zipWith (fun x y => x && y) (maskGapMask a max_gap_frequency)
    (maskConsMask a min_conservation)

/-- `mask(alignment, max_gap_frequency, min_conservation)` (defaults 1.0 and
0.40): threshold validation, empty-input validation, masking, and the
empty-result diagnostic with the percentage of columns each mask retained. -/
def mask (alignment : MSA) (max_gap_frequency min_conservation : ℚ) :
    Except String MSA :=
  if max_gap_frequency < 0 ∨ 1 < max_gap_frequency then
    .error ("max_gap_frequency out of range [0.0, 1.0]: " ++
      formatFixed6 max_gap_frequency)
  else if min_conservation < 0 ∨ 1 < min_conservation then
    .error ("min_conservation out of range [0.0, 1.0]: " ++
      formatFixed6 min_conservation)
  else if alignment.ncols = 0 then
    .error ("Input alignment is empty (i.e., there are zero sequences or " ++
      "positions in the input alignment).")
  else
    let result := apply_mask alignment
      (maskCombined alignment max_gap_frequency min_conservation)
    if result.ncols = 0 then
      .error (noPositionsMsg
        (formatPercent (((maskGapMask alignment max_gap_frequency).count true : ℚ) /
          (alignment.ncols : ℚ)))
        (formatPercent (((maskConsMask alignment min_conservation).count true : ℚ) /
          (alignment.ncols : ℚ))))
    else .ok result

/-- `mask` with the state of the input alignment after the call: no
statement of `mask` mutates the input. -/
def mask_fx (alignment : MSA) (max_gap_frequency min_conservation : ℚ) :
    MSA × Except String MSA :=
  (alignment, mask alignment max_gap_frequency min_conservation)

/-! ### Concrete alignments from the repository's test suite -/

/-- The 9-column alignment `{s1: CCA-T-AGA, s2: T---T-ATA, s3: ---GTTATA}`
of `FilterPositionsTests`, with the default positional row labels. -/
def exAln9 : MSA :=
  ⟨[⟨"s1", "CCA-T-AGA".data⟩, ⟨"s2", "T---T-ATA".data⟩,
    ⟨"s3", "---GTTATA".data⟩], ["0", "1", "2"]⟩

/-- The single-column alignment `{A, -, -}` of
`test_error_on_empty_alignment_gap_boundary`. -/
def exAlnGap : MSA :=
  ⟨[⟨"seq1", ['A']⟩, ⟨"seq2", ['-']⟩, ⟨"seq3", ['-']⟩], ["0", "1", "2"]⟩

/-- The alignment `{AGA, -GA, -GC}` of `MaskTests.test_basic`. -/
def exAlnBasic : MSA :=
  ⟨[⟨"seq1", "AGA".data⟩, ⟨"seq2", "-GA".data⟩, ⟨"seq3", "-GC".data⟩],
   ["0", "1", "2"]⟩

/-- `mask`'s expected output `{GA, GA, GC}` on `exAlnBasic`. -/
def exAlnBasicMasked : MSA :=
  ⟨[⟨"seq1", "GA".data⟩, ⟨"seq2", "GA".data⟩, ⟨"seq3", "GC".data⟩],
   ["0", "1", "2"]⟩

/-- A one-sequence alignment `{s1: A}`. -/
def exAln1 : MSA := ⟨[⟨"s1", ['A']⟩], ["0"]⟩

/-- A one-sequence alignment `{s1: AC}`. -/
def exAln2 : MSA := ⟨[⟨"s1", ['A', 'C']⟩], ["0"]⟩

/-- The frequency vectors of `MostConservedTests.test_basic`. -/
def exFreqs : List FreqVec :=
  [[('A', 1/3), ('-', 2/3)], [('G', 1)], [('A', 2/3), ('C', 1/3)]]

/-- Count-valued frequency vectors of a two-column, three-sequence
alignment whose first column is `A`, `-`, `-`. -/
def exGapFreqs : List FreqVec := [[('A', 1), ('-', 2)], [('G', 3)]]

/-- A small sequence stream: one clean sequence, one gap-heavy sequence,
one `N`-heavy sequence. -/
def exSeqs : List DNASeq :=
  [⟨"a", "AC-G".data⟩, ⟨"b", "A---".data⟩, ⟨"c", "ANNN".data⟩]

/-- A zero-length sequence. -/
def exEmptySeq : DNASeq := ⟨"z", []⟩

/-! ## Theorems -/

/-- After a `filter_positions` call the input object is unchanged when the
initial `end < start` check fails, and has its index reassigned otherwise. -/
theorem filter_positions_fx_fst (a : MSA) (rid : String) (s e : ℤ) :
    (filter_positions_fx a rid s e).fst =
      if e < s - 1 then a else reassign_index a := by
  unfold filter_positions_fx
  by_cases h : e < s - 1
  · simp [h]
  · simp only [if_neg h]
    split <;> try rfl
    split <;> try rfl
    split <;> try rfl
    split <;> try rfl
    split <;> rfl

/-- C1.  The code does not implement the claimed slicing when `end` is
strictly below the reference's ungapped length: on the 9-column alignment
with reference `s3` (ungapped length 6), `start = 1`, `end = 5`, all three
documented validations pass, yet the call returns the alignment with all 9
columns (only the row index reassigned) instead of the 6-wide restriction
through the column mapped to `end` — the `else` branch computes `aln_end`
and never slices with it. -/
theorem filter_positions_end_lt_length_bug :
    filter_positions exAln9 "s3" 1 5 = .ok (reassign_index exAln9) ∧
      (reassign_index exAln9).ncols = 9 ∧
      filter_positions exAln9 "s3" 1 6 =
        .ok ⟨[⟨"s1", "-T-AGA".data⟩, ⟨"s2", "-T-ATA".data⟩,
              ⟨"s3", "GTTATA".data⟩], ["s1", "s2", "s3"]⟩ := by
  refine ⟨by decide, by decide, by decide⟩

/-- C4.  Inputs passing the end-versus-start check, the reference lookup and
the end-versus-ungapped-length check can still make the search for the
column mapped to the converted `start` come up empty: on `{s1: A}` with
`start = 2`, `end = 1` the call escapes with the undocumented numpy
`IndexError` rather than any documented error kind. -/
theorem filter_positions_unhandled_index_error :
    filter_positions exAln1 "s1" 2 1 = .error .indexError ∧
      FilterErr.isDocumented .indexError = false := by
  exact ⟨by decide, rfl⟩

/-- C2, counterexample.  `filter_positions` mutates its input alignment:
`reassign_index(minter='id')` overwrites the input's row index in place, so
after `filter_positions(exAln9, 's3', 1, 6)` the input object has changed. -/
theorem filter_positions_mutates_input :
    (filter_positions_fx exAln9 "s3" 1 6).fst ≠ exAln9 := by
  decide

/-- C2, amended.  `mask` and `filter_seqs` leave their inputs unchanged and
return fresh values; `filter_positions` never changes the sequence data of
its input, but it does mutate the input alignment in place, leaving it
either untouched (when the initial `end < start` check fails first) or with
its row index reassigned to the sequence ids. -/
theorem operations_effect_on_inputs :
    (∀ a g c, (mask_fx a g c).fst = a) ∧
    (∀ seqs mg mn mil mal, (filter_seqs_fx seqs mg mn mil mal).fst = seqs) ∧
    (∀ a rid s e,
      ((filter_positions_fx a rid s e).fst = a ∨
        (filter_positions_fx a rid s e).fst = reassign_index a) ∧
      ((filter_positions_fx a rid s e).fst).seqs = a.seqs) := by
  refine ⟨fun _ _ _ => rfl, fun _ _ _ _ _ => rfl, fun a rid s e => ?_⟩
  rw [filter_positions_fx_fst]
  split
  · exact ⟨Or.inl rfl, rfl⟩
  · exact ⟨Or.inr rfl, rfl⟩

/-- C3, counterexample.  The claim's paraphrase "the call fails whenever end
is less than the 1-based start" is false: with `start = 2`, `end = 1` on
`{s1: AC}` the comparison `end < start - 1` is `1 < 1`, so no error is
raised and the (index-reassigned) alignment is returned. -/
theorem end_start_check_counterexample :
    filter_positions exAln2 "s1" 2 1 = .ok (reassign_index exAln2) := by
  decide

/-- C3, amended.  `filter_positions` raises the invalid-argument error
`'end must be greater than start'` exactly when the original 1-based `end`
is less than the converted 0-based start, i.e. when `end < start - 1`; a
call with `end = start - 1` passes that check. -/
theorem filter_positions_end_start_iff (a : MSA) (rid : String) (s e : ℤ) :
    filter_positions a rid s e = .error .valueErrorEndStart ↔ e < s - 1 := by
  unfold filter_positions filter_positions_fx
  by_cases h : e < s - 1
  · simp [h]
  · simp only [if_neg h]
    constructor
    · intro hres
      exfalso
      revert hres
      split
      · intro hres
        exact FilterErr.noConfusion (Except.error.inj hres)
      · split
        · intro hres
          exact FilterErr.noConfusion (Except.error.inj hres)
        · split
          · intro hres
            exact FilterErr.noConfusion (Except.error.inj hres)
          · split
            · intro hres
              exact Except.noConfusion hres
            · split
              · intro hres
                exact FilterErr.noConfusion (Except.error.inj hres)
              · intro hres
                exact Except.noConfusion hres
    · intro hlt
      exact absurd hlt h

/-- C3, witness for the amended theorem at `start = 5`, `end = 1`. -/
theorem filter_positions_end_start_iff_witness :
    filter_positions exAln2 "s1" 5 1 = .error .valueErrorEndStart :=
  (filter_positions_end_start_iff exAln2 "s1" 5 1).mpr (by decide)

/-! ### Helper lemmas about `npMax` and frequency values -/

/-- `foldl max` never drops below its accumulator. -/
theorem le_foldl_max (xs : List ℚ) : ∀ acc : ℚ, acc ≤ xs.foldl max acc := by
  induction xs with
  | nil => intro acc; exact le_rfl
  | cons x xs ih =>
      intro acc
      exact le_trans (le_max_left acc x) (ih (max acc x))

/-- For nonnegative entries, `foldl max` is bounded by accumulator plus sum. -/
theorem foldl_max_le_add_sum (xs : List ℚ) :
    ∀ acc : ℚ, 0 ≤ acc → (∀ y ∈ xs, 0 ≤ y) →
      xs.foldl max acc ≤ acc + xs.sum := by
  induction xs with
  | nil => intro acc _ _; simp
  | cons x xs ih =>
      intro acc hacc hnn
      have hx : 0 ≤ x := hnn x (List.mem_cons_self x xs)
      have h1 : xs.foldl max (max acc x) ≤ max acc x + xs.sum :=
        ih (max acc x) (le_trans hacc (le_max_left acc x))
          (fun y hy => hnn y (List.mem_cons_of_mem x hy))
      have h2 : max acc x ≤ acc + x := max_le (by linarith) (by linarith)
      calc (x :: xs).foldl max acc = xs.foldl max (max acc x) := rfl
        _ ≤ max acc x + xs.sum := h1
        _ ≤ acc + x + xs.sum := by linarith
        _ = acc + (x :: xs).sum := by rw [List.sum_cons]; ring

/-- On a list of nonnegative rationals, `npMax` lies between 0 and the sum. -/
theorem npMax_nonneg_le_sum (vals : List ℚ) (h : ∀ y ∈ vals, 0 ≤ y) :
    0 ≤ npMax vals ∧ npMax vals ≤ vals.sum := by
  cases vals with
  | nil => simp [npMax]
  | cons x xs =>
      have hx : 0 ≤ x := h x (List.mem_cons_self x xs)
      have hxs : ∀ y ∈ xs, 0 ≤ y := fun y hy => h y (List.mem_cons_of_mem x hy)
      constructor
      · exact le_trans hx (le_foldl_max xs x)
      · have := foldl_max_le_add_sum xs x hx hxs
        simpa [npMax, List.sum_cons] using this

/-- The most-conserved fraction of one frequency vector with nonnegative
values lies in `[0, 1]`. -/
theorem mostConserved1_mem_unit (f : FreqVec) (st : SeqType)
    (h : ∀ p ∈ f, 0 ≤ p.2) :
    0 ≤ mostConserved1 f st ∧ mostConserved1 f st ≤ 1 := by
  unfold mostConserved1
  have hvnn : ∀ y ∈ freqValues (removeGaps f st), 0 ≤ y := by
    intro y hy
    obtain ⟨p, hp, rfl⟩ := List.mem_map.mp hy
    exact h p (List.mem_of_mem_filter hp)
  obtain ⟨hmax0, hmaxsum⟩ := npMax_nonneg_le_sum _ hvnn
  have hsum0 : 0 ≤ (freqValues (removeGaps f st)).sum := List.sum_nonneg hvnn
  by_cases hlen : (freqValues (removeGaps f st)).length = 0
  · simp [hlen]
  · simp only [if_neg hlen]
    refine ⟨div_nonneg hmax0 hsum0, ?_⟩
    rcases eq_or_lt_of_le hsum0 with hz | hpos
    · rw [← hz, div_zero]
      exact zero_le_one
    · rw [div_le_one hpos]
      exact hmaxsum

/-- C5.  `_most_conserved` removes the gap-character entries of each
frequency vector; a fully-gapped column yields exactly 0, any other column
yields `max/sum` of the remaining values, and with nonnegative frequencies
every result lies in `[0, 1]`; the conservation mask retains a column
exactly when this fraction reaches `min_conservation`; and an empty list of
frequency vectors yields an empty result list. -/
theorem most_conserved_spec (freqs : List FreqVec) (st : SeqType) (minc : ℚ)
    (hnn : ∀ f ∈ freqs, ∀ p ∈ f, 0 ≤ p.2) :
    (∀ f ∈ freqs, removeGaps f st = [] → mostConserved1 f st = 0) ∧
    (∀ f ∈ freqs, removeGaps f st ≠ [] →
      mostConserved1 f st =
        npMax (freqValues (removeGaps f st)) /
          (freqValues (removeGaps f st)).sum) ∧
    (∀ f ∈ freqs, 0 ≤ mostConserved1 f st ∧ mostConserved1 f st ≤ 1) ∧
    compute_conservation_mask freqs st minc =
      (most_conserved freqs st).map (fun c => decide (c ≥ minc)) ∧
    most_conserved [] st = [] := by
  refine ⟨?_, ?_, ?_, rfl, rfl⟩
  · intro f _ hempty
    unfold mostConserved1
    simp [hempty, freqValues]
  · intro f _ hne
    unfold mostConserved1
    have : (freqValues (removeGaps f st)).length ≠ 0 := by
      simpa [freqValues] using hne
    simp only [if_neg this]
  · intro f hf
    exact mostConserved1_mem_unit f st (hnn f hf)

/-- C5, witness at the frequency vectors of the repository's own test. -/
theorem most_conserved_spec_witness :
    (∀ f ∈ exFreqs, ∀ p ∈ f, 0 ≤ p.2) ∧
      most_conserved exFreqs DNAType = [1, 1, 2/3] ∧
      compute_conservation_mask exFreqs DNAType (2/5) =
        (most_conserved exFreqs DNAType).map (fun c => decide (c ≥ (2/5 : ℚ))) :=
  ⟨by decide, by decide,
    (most_conserved_spec exFreqs DNAType (2/5) (by decide)).2.2.2.1⟩

/-- C6.  The gap mask retains column `i` exactly when the summed frequency
of the gap characters of that column, divided by the total sequence count
read once from the first column's values, is at most `max_gap_frequency`. -/
theorem compute_gap_mask_spec (freqs : List FreqVec) (st : SeqType)
    (mgf : ℚ) (i : ℕ) (f : FreqVec) (hif : freqs[i]? = some f) :
    (compute_gap_mask freqs st mgf)[i]? =
      some (decide (gapSum f st / (freqValues (freqs.headD [])).sum ≤ mgf)) := by
  unfold compute_gap_mask
  simp [List.getElem?_map, hif]

/-- C6, witness: two count-valued columns of a three-sequence alignment,
the first (`A`,`-`,`-`) rejected at threshold 1/2, evaluated concretely. -/
theorem compute_gap_mask_spec_witness :
    exGapFreqs[0]? = some [('A', 1), ('-', 2)] ∧
      (compute_gap_mask exGapFreqs DNAType (1/2))[0]? =
        some (decide (gapSum [('A', 1), ('-', 2)] DNAType /
          (freqValues (exGapFreqs.headD [])).sum ≤ (1/2 : ℚ))) ∧
      compute_gap_mask exGapFreqs DNAType (1/2) = [false, true] :=
  ⟨by decide,
    compute_gap_mask_spec exGapFreqs DNAType (1/2) 0 [('A', 1), ('-', 2)] (by decide),
    by decide⟩

/-! ### `filter_seqs` lemmas -/

/-- Setting a key that is not yet present in a `pd.Series` appends it. -/
theorem seriesSet_append (l : List (String × DNASeq)) (k : String) (v : DNASeq)
    (h : ∀ p ∈ l, p.1 ≠ k) : seriesSet l k v = l ++ [(k, v)] := by
  unfold seriesSet
  have hany : l.any (fun p => p.1 == k) = false := by
    rw [List.any_eq_false]
    intro p hp
    simpa using h p hp
  simp [hany]

/-- The `filter_seqs` loop, over an arbitrary accumulator whose keys avoid
the incoming ids: it appends the retained sequences keyed by id, in order. -/
theorem filter_seqs_foldl (mg mn : ℚ) (mil : ℕ) (mal : Option ℕ) :
    ∀ (seqs : List DNASeq) (acc : List (String × DNASeq)),
      (∀ s ∈ seqs, ∀ p ∈ acc, p.1 ≠ s.id) →
      (seqs.map DNASeq.id).Nodup →
      seqs.foldl
        (fun result s =>
          if keepSeq mg mn mil mal s then seriesSet result s.id s else result)
        acc =
      acc ++ (seqs.filter (keepSeq mg mn mil mal)).map (fun s => (s.id, s)) := by
  intro seqs
  induction seqs with
  | nil => intro acc _ _; simp
  | cons s rest ih =>
      intro acc hacc hnd
      rw [List.map_cons] at hnd
      obtain ⟨hnotmem, hnd'⟩ := List.nodup_cons.mp hnd
      rw [List.foldl_cons]
      by_cases hk : keepSeq mg mn mil mal s = true
      · rw [if_pos hk, seriesSet_append acc s.id s (hacc s (List.mem_cons_self s rest))]
        rw [ih (acc ++ [(s.id, s)]) ?hacc' hnd']
        · rw [List.filter_cons_of_pos hk]
          simp [List.append_assoc]
        case hacc' =>
          intro t ht p hp
          rcases List.mem_append.mp hp with hp | hp
          · exact hacc t (List.mem_cons_of_mem s ht) p hp
          · have hps : p = (s.id, s) := by simpa using hp
            subst hps
            intro hcontra
            have : s.id ∈ rest.map DNASeq.id := by
              rw [show s.id = t.id from hcontra]
              exact List.mem_map_of_mem DNASeq.id ht
            exact hnotmem this
      · rw [if_neg hk, ih acc (fun t ht => hacc t (List.mem_cons_of_mem s ht)) hnd']
        rw [List.filter_cons_of_neg (by simpa using hk)]

/-- C9.  With pairwise-distinct ids, `filter_seqs` returns exactly the
sequences passing the three documented tests, keyed by id in source order;
and the retention test holds exactly when the raw length is within
`min_length`/`max_length`, the gap fraction is at most `max_gap_frequency`,
and the `N` fraction of the degapped sequence is at most `max_n_frequency`. -/
theorem filter_seqs_spec (seqs : List DNASeq) (mg mn : ℚ) (mil : ℕ)
    (mal : Option ℕ) (hnd : (seqs.map DNASeq.id).Nodup) :
    filter_seqs seqs mg mn mil mal =
      (seqs.filter (keepSeq mg mn mil mal)).map (fun s => (s.id, s)) ∧
    ∀ s : DNASeq, keepSeq mg mn mil mal s = true ↔
      (mil ≤ s.chars.length ∧ (∀ M, mal = some M → s.chars.length ≤ M) ∧
        (gapCount s : ℚ) / (s.chars.length : ℚ) ≤ mg ∧ nFrac s ≤ mn) := by
  constructor
  · have h := filter_seqs_foldl mg mn mil mal seqs [] (by simp) hnd
    simpa [filter_seqs] using h
  · intro s
    have hify : keepSeq mg mn mil mal s = true ↔
        (lengthBad mil mal s.chars.length = false ∧
          ¬ (mg < (gapCount s : ℚ) / (s.chars.length : ℚ)) ∧
          ¬ (mn < nFrac s)) := by
      unfold keepSeq
      split_ifs with h1 h2 h3 <;> simp_all
    rw [hify, not_lt, not_lt]
    have hlb : lengthBad mil mal s.chars.length = false ↔
        (mil ≤ s.chars.length ∧ ∀ M, mal = some M → s.chars.length ≤ M) := by
      unfold lengthBad
      cases mal with
      | none => simp [Nat.not_lt]
      | some M => simp [Nat.not_lt, and_comm]
    rw [hlb, and_assoc]

/-- C9, witness on a three-sequence stream: the gap-heavy and `N`-heavy
sequences are dropped, the clean one is kept under its id. -/
theorem filter_seqs_spec_witness :
    (exSeqs.map DNASeq.id).Nodup ∧
      filter_seqs exSeqs (1/2) (1/2) 0 none =
        (exSeqs.filter (keepSeq (1/2) (1/2) 0 none)).map (fun s => (s.id, s)) ∧
      filter_seqs exSeqs (1/2) (1/2) 0 none = [("a", ⟨"a", "AC-G".data⟩)] :=
  ⟨by decide, (filter_seqs_spec exSeqs (1/2) (1/2) 0 none (by decide)).1, by decide⟩

/-- C10.  A zero-length sequence never triggers a division failure (all
divisions are total here, mirroring numpy's non-raising float division):
its fate is decided purely by the length checks, so with the thresholds in
their documented nonnegative range it is retained exactly when
`min_length = 0`. -/
theorem filter_seqs_zero_length (s : DNASeq) (mg mn : ℚ) (mil : ℕ)
    (mal : Option ℕ) (hlen : s.chars.length = 0) (hmg : 0 ≤ mg) (hmn : 0 ≤ mn) :
    keepSeq mg mn mil mal s = decide (mil = 0) ∧
      filter_seqs [s] mg mn mil mal =
        if mil = 0 then [(s.id, s)] else [] := by
  have hnil : s.chars = [] := List.length_eq_zero.mp hlen
  have hgc : gapCount s = 0 := by simp [gapCount, hnil]
  have hnf : nFrac s = 0 := by simp [nFrac, degap, hnil]
  have hkeep : keepSeq mg mn mil mal s = decide (mil = 0) := by
    unfold keepSeq lengthBad
    rw [hlen, hgc, hnf]
    have hdiv : ((0 : ℕ) : ℚ) / ((0 : ℕ) : ℚ) = 0 := by simp
    cases mal with
    | none =>
        by_cases hm : mil = 0 <;>
          simp [hm, hdiv, not_lt.mpr hmg, not_lt.mpr hmn, Nat.pos_of_ne_zero]
    | some M =>
        by_cases hm : mil = 0 <;>
          simp [hm, hdiv, not_lt.mpr hmg, not_lt.mpr hmn, Nat.pos_of_ne_zero]
  refine ⟨hkeep, ?_⟩
  unfold filter_seqs
  rw [List.foldl_cons, hkeep]
  by_cases hm : mil = 0
  · rw [if_pos hm]
    simp [hm, seriesSet]
  · rw [if_neg hm]
    simp [hm]

/-- C10, witness: the empty sequence with zero thresholds and
`min_length = 0` is retained with no failure. -/
theorem filter_seqs_zero_length_witness :
    exEmptySeq.chars.length = 0 ∧ (0 : ℚ) ≤ 0 ∧
      keepSeq 0 0 0 none exEmptySeq = decide ((0 : ℕ) = 0) ∧
      filter_seqs [exEmptySeq] 0 0 0 none = [("z", exEmptySeq)] :=
  ⟨rfl, le_rfl,
    (filter_seqs_zero_length exEmptySeq 0 0 0 none rfl le_rfl le_rfl).1,
    by decide⟩

/-! ### Substring lemmas for the `mask` diagnostic -/

/-- A list starts with itself followed by anything. -/
theorem listStartsWith_self_append (t r : List Char) :
    listStartsWith (t ++ r) t = true := by
  induction t with
  | nil => simp [listStartsWith]
  | cons a t ih => simp [listStartsWith, ih]

/-- `containsSub` finds a block that starts right after a known part. -/
theorem containsSub_append (pre hay sub : List Char)
    (h : listStartsWith hay sub = true) :
    containsSub (pre ++ hay) sub = true := by
  induction pre with
  | nil =>
      rw [List.nil_append]
      unfold containsSub
      simp [h]
  | cons a pre ih =>
      rw [List.cons_append]
      unfold containsSub
      split
      · rfl
      · exact ih

/-- A string of the shape `pre ++ (t ++ post)` contains `t`. -/
theorem strContains_of_shape (pre t post : String) :
    strContains (pre ++ (t ++ post)) t = true := by
  unfold strContains
  rw [String.data_append, String.data_append]
  exact containsSub_append pre.data (t.data ++ post.data) t.data
    (listStartsWith_self_append t.data post.data)

/-- A substring one level deeper on the right is still found. -/
theorem strContains_of_shape2 (p q t post : String) :
    strContains (p ++ (q ++ (t ++ post))) t = true := by
  rw [← String.append_assoc]
  exact strContains_of_shape (p ++ q) t post

/-- A substring two levels deeper on the right is still found. -/
theorem strContains_of_shape3 (p q r t post : String) :
    strContains (p ++ (q ++ (r ++ (t ++ post)))) t = true := by
  rw [← String.append_assoc]
  exact strContains_of_shape2 (p ++ q) r t post

/-- The no-positions-remain message contains both percentage diagnostics. -/
theorem noPositionsMsg_contains (sg sc : String) :
    strContains (noPositionsMsg sg sc)
      (sg ++ " of positions were retained by the gap filter") = true ∧
    strContains (noPositionsMsg sg sc)
      (sc ++ " of positions were retained by the conservation filter") = true := by
  unfold noPositionsMsg
  exact ⟨strContains_of_shape _ _ _, strContains_of_shape3 _ _ _ _ _⟩

/-- C7.  When both thresholds are in range, the input alignment is nonempty
and the combined mask leaves zero columns, `mask` fails with the
invalid-state message that reports, against the original column count, the
percentage of columns the gap filter alone retained and the percentage the
conservation filter alone retained — and both diagnostics occur verbatim in
the message. -/
theorem mask_no_positions_diagnostic (a : MSA) (g c : ℚ)
    (hg : ¬ (g < 0 ∨ 1 < g)) (hc : ¬ (c < 0 ∨ 1 < c)) (hne : a.ncols ≠ 0)
    (hz : (apply_mask a (maskCombined a g c)).ncols = 0) :
    mask a g c = .error (noPositionsMsg
        (formatPercent (((maskGapMask a g).count true : ℚ) / (a.ncols : ℚ)))
        (formatPercent (((maskConsMask a c).count true : ℚ) / (a.ncols : ℚ)))) ∧
    strContains (noPositionsMsg
        (formatPercent (((maskGapMask a g).count true : ℚ) / (a.ncols : ℚ)))
        (formatPercent (((maskConsMask a c).count true : ℚ) / (a.ncols : ℚ))))
      (formatPercent (((maskGapMask a g).count true : ℚ) / (a.ncols : ℚ)) ++
        " of positions were retained by the gap filter") = true ∧
    strContains (noPositionsMsg
        (formatPercent (((maskGapMask a g).count true : ℚ) / (a.ncols : ℚ)))
        (formatPercent (((maskConsMask a c).count true : ℚ) / (a.ncols : ℚ))))
      (formatPercent (((maskConsMask a c).count true : ℚ) / (a.ncols : ℚ)) ++
        " of positions were retained by the conservation filter") = true := by
  refine ⟨?_, (noPositionsMsg_contains _ _).1, (noPositionsMsg_contains _ _).2⟩
  unfold mask
  rw [if_neg hg, if_neg hc, if_neg hne]
  simp only [hz, if_pos]

/-- C7, witness: `mask` on `{A, -, -}` with `max_gap_frequency = 1/10` and
the default `min_conservation = 2/5` fails, and the message contains
`0.00% of positions were retained by the gap`. -/
theorem mask_no_positions_diagnostic_witness :
    (¬ ((1/10 : ℚ) < 0 ∨ 1 < (1/10 : ℚ))) ∧ (¬ ((2/5 : ℚ) < 0 ∨ 1 < (2/5 : ℚ))) ∧
      exAlnGap.ncols ≠ 0 ∧
      (apply_mask exAlnGap (maskCombined exAlnGap (1/10) (2/5))).ncols = 0 ∧
      mask exAlnGap (1/10) (2/5) = .error (noPositionsMsg
        (formatPercent (((maskGapMask exAlnGap (1/10)).count true : ℚ) /
          (exAlnGap.ncols : ℚ)))
        (formatPercent (((maskConsMask exAlnGap (2/5)).count true : ℚ) /
          (exAlnGap.ncols : ℚ)))) ∧
      strContains (noPositionsMsg
        (formatPercent (((maskGapMask exAlnGap (1/10)).count true : ℚ) /
          (exAlnGap.ncols : ℚ)))
        (formatPercent (((maskConsMask exAlnGap (2/5)).count true : ℚ) /
          (exAlnGap.ncols : ℚ))))
        "0.00% of positions were retained by the gap" = true :=
  ⟨by decide, by decide, by decide, by decide,
    (mask_no_positions_diagnostic exAlnGap (1/10) (2/5)
      (by decide) (by decide) (by decide) (by decide)).1,
    by decide⟩

/-! ### `selectMask` lemmas -/

/-- Masking with an empty mask yields the empty list. -/
theorem selectMask_nil_right {α : Type} (l : List α) : selectMask l [] = [] := by
  cases l <;> rfl

/-- Masking a list of matching length keeps `count true` elements. -/
theorem length_selectMask {α : Type} :
    ∀ (m : List Bool) (l : List α), l.length = m.length →
      (selectMask l m).length = m.count true := by
  intro m
  induction m with
  | nil => intro l _; rw [selectMask_nil_right]; rfl
  | cons b bs ih =>
      intro l h
      cases l with
      | nil => simp at h
      | cons x xs =>
          have hx : xs.length = bs.length := by simpa using h
          cases b <;> simp [selectMask, List.count_cons, ih xs hx]

/-- Masking commutes with `map`. -/
theorem selectMask_map {α β : Type} (f : α → β) :
    ∀ (m : List Bool) (l : List α),
      selectMask (l.map f) m = (selectMask l m).map f := by
  intro m
  induction m with
  | nil => intro l; rw [selectMask_nil_right, selectMask_nil_right]; rfl
  | cons b bs ih =>
      intro l
      cases l with
      | nil => rfl
      | cons x xs => cases b <;> simp [selectMask, ih xs]

/-- Masking commutes with `zipWith`. -/
theorem selectMask_zipWith {α β γ : Type} (f : α → β → γ) :
    ∀ (m : List Bool) (l1 : List α) (l2 : List β),
      selectMask (List.zipWith f l1 l2) m =
        List.zipWith f (selectMask l1 m) (selectMask l2 m) := by
  intro m
  induction m with
  | nil =>
      intro l1 l2
      rw [selectMask_nil_right, selectMask_nil_right, selectMask_nil_right]
      rfl
  | cons b bs ih =>
      intro l1 l2
      cases l1 with
      | nil => rfl
      | cons x xs =>
          cases l2 with
          | nil => cases b <;> simp [selectMask]
          | cons y ys => cases b <;> simp [selectMask, ih xs ys]

/-- A boolean mask applied to itself keeps only `true` entries. -/
theorem selectMask_self :
    ∀ m : List Bool, selectMask m m = List.replicate (m.count true) true := by
  intro m
  induction m with
  | nil => rfl
  | cons b bs ih =>
      cases b <;> simp [selectMask, List.count_cons, ih, List.replicate_succ]

/-- An all-true mask of the right length keeps everything. -/
theorem selectMask_replicate_true {α : Type} :
    ∀ (n : ℕ) (l : List α), l.length = n →
      selectMask l (List.replicate n true) = l := by
  intro n
  induction n with
  | zero =>
      intro l h
      rw [List.length_eq_zero] at h
      subst h
      rfl
  | succ k ih =>
      intro l h
      cases l with
      | nil => simp at h
      | cons x xs =>
          simp [List.replicate_succ, selectMask, ih xs (by simpa using h)]

/-! ### Columns of a masked alignment -/

/-- `getD` one step down is `getD` on the tail. -/
theorem getD_succ_tail {α : Type} (r : List α) (j : ℕ) (d : α) :
    r.getD (j + 1) d = r.tail.getD j d := by
  cases r <;> rfl

/-- Peeling the first column off `colsOfRows`. -/
theorem colsOfRows_succ (k : ℕ) (rows : List (List Char)) :
    colsOfRows (k + 1) rows =
      (rows.map (fun r => r.getD 0 ' ')) :: colsOfRows k (rows.map List.tail) := by
  unfold colsOfRows
  rw [List.range_succ_eq_map, List.map_cons]
  congr 1
  rw [List.map_map]
  have hfun : ((fun j => rows.map (fun r => r.getD j ' ')) ∘ Nat.succ) =
      (fun j => (rows.map List.tail).map (fun r => r.getD j ' ')) := by
    funext j
    simp only [Function.comp_apply, List.map_map, Function.comp_def]
    simp only [getD_succ_tail]
  rw [hfun]

/-- `selectMask` on a nonempty row with a `true` head keeps the head. -/
theorem selectMask_cons_true (r : List Char) (bs : List Bool)
    (h : r.length = bs.length + 1) :
    selectMask r (true :: bs) = r.getD 0 ' ' :: selectMask r.tail bs := by
  cases r with
  | nil => simp at h
  | cons x xs => rfl

/-- `selectMask` on a nonempty row with a `false` head drops the head. -/
theorem selectMask_cons_false (r : List Char) (bs : List Bool)
    (h : r.length = bs.length + 1) :
    selectMask r (false :: bs) = selectMask r.tail bs := by
  cases r with
  | nil => simp at h
  | cons x xs => rfl

/-- Column extraction commutes with masking: the columns of the row-wise
masked rows are the masked columns. -/
theorem colsOfRows_selectMask :
    ∀ (m : List Bool) (rows : List (List Char)),
      (∀ r ∈ rows, r.length = m.length) →
      colsOfRows (m.count true) (rows.map (fun r => selectMask r m)) =
        selectMask (colsOfRows m.length rows) m := by
  intro m
  induction m with
  | nil =>
      intro rows _
      simp [colsOfRows, selectMask_nil_right]
  | cons b bs ih =>
      intro rows h
      have hlen : ∀ r ∈ rows, r.length = bs.length + 1 := by simpa using h
      have htail : ∀ r ∈ rows.map List.tail, r.length = bs.length := by
        intro r hr
        obtain ⟨r0, hr0, rfl⟩ := List.mem_map.mp hr
        simp [List.length_tail, hlen r0 hr0]
      cases b with
      | true =>
          have hmap : rows.map (fun r => selectMask r (true :: bs)) =
              rows.map (fun r => r.getD 0 ' ' :: selectMask r.tail bs) :=
            List.map_congr_left (fun r hr => selectMask_cons_true r bs (hlen r hr))
          rw [hmap]
          rw [show (true :: bs).count true = bs.count true + 1 by
            simp [List.count_cons]]
          rw [colsOfRows_succ, List.map_map, List.map_map]
          have e1 : ((fun l : List Char => l.getD 0 ' ') ∘
              (fun r : List Char => r.getD 0 ' ' :: selectMask r.tail bs)) =
              fun r : List Char => r.getD 0 ' ' := rfl
          have e2 : (List.tail ∘
              (fun r : List Char => r.getD 0 ' ' :: selectMask r.tail bs)) =
              fun r : List Char => selectMask r.tail bs := rfl
          rw [e1, e2]
          rw [show (fun r : List Char => selectMask r.tail bs) =
            ((fun r => selectMask r bs) ∘ List.tail) from rfl]
          rw [← List.map_map, ih (rows.map List.tail) htail]
          rw [show (true :: bs).length = bs.length + 1 from rfl]
          rw [colsOfRows_succ]
          simp [selectMask]
      | false =>
          have hmap : rows.map (fun r => selectMask r (false :: bs)) =
              rows.map (fun r => selectMask r.tail bs) :=
            List.map_congr_left (fun r hr => selectMask_cons_false r bs (hlen r hr))
          rw [hmap]
          rw [show (false :: bs).count true = bs.count true by simp [List.count_cons]]
          rw [show (fun r : List Char => selectMask r.tail bs) =
            ((fun r => selectMask r bs) ∘ List.tail) from rfl]
          rw [← List.map_map, ih (rows.map List.tail) htail]
          rw [show (false :: bs).length = bs.length + 1 from rfl]
          rw [colsOfRows_succ]
          simp [selectMask]

/-! ### `mask`-level facts -/

/-- The number of columns after masking is the mask's `true`-count. -/
theorem ncols_apply_mask (a : MSA) (m : List Bool) (hwf : a.WF)
    (hm : m.length = a.ncols) : (apply_mask a m).ncols = m.count true := by
  rcases hs : a.seqs with _ | ⟨s, rest⟩
  · have h0 : a.ncols = 0 := by unfold MSA.ncols; rw [hs]
    have hm0 : m = [] := by
      have := hm.trans h0
      exact List.length_eq_zero.mp this
    subst hm0
    unfold apply_mask MSA.ncols
    rw [hs]
    rfl
  · have hslen : s.chars.length = m.length := by
      rw [hm]
      exact hwf s (by rw [hs]; exact List.mem_cons_self s rest)
    unfold apply_mask MSA.ncols
    rw [hs]
    exact length_selectMask m s.chars hslen

/-- The columns of a masked alignment are the masked columns. -/
theorem cols_apply_mask (a : MSA) (m : List Bool) (hwf : a.WF)
    (hm : m.length = a.ncols) :
    (apply_mask a m).cols = selectMask a.cols m := by
  unfold MSA.cols
  rw [ncols_apply_mask a m hwf hm]
  have hrows : (apply_mask a m).seqs.map DNASeq.chars =
      (a.seqs.map DNASeq.chars).map (fun r => selectMask r m) := by
    unfold apply_mask
    rw [List.map_map, List.map_map]
    rfl
  rw [hrows, ← hm]
  refine colsOfRows_selectMask m (a.seqs.map DNASeq.chars) ?_
  intro r hr
  obtain ⟨s, hsmem, rfl⟩ := List.mem_map.mp hr
  rw [hm]
  exact hwf s hsmem

/-! ### The values of a column's frequency dictionary sum to its length -/

/-- Membership in `uniqueKeysAux`. -/
theorem mem_uniqueKeysAux :
    ∀ (l seen : List Char) (x : Char),
      x ∈ uniqueKeysAux l seen ↔ x ∈ l ∧ x ∉ seen := by
  intro l
  induction l with
  | nil => intro seen x; simp [uniqueKeysAux]
  | cons c rest ih =>
      intro seen x
      by_cases hc : c ∈ seen
      · by_cases hx : x = c <;> simp [uniqueKeysAux, hc, ih, hx]
      · by_cases hx : x = c <;> simp [uniqueKeysAux, hc, ih, hx]

/-- `uniqueKeysAux` never repeats a key. -/
theorem nodup_uniqueKeysAux :
    ∀ (l seen : List Char), (uniqueKeysAux l seen).Nodup := by
  intro l
  induction l with
  | nil => intro seen; simp [uniqueKeysAux]
  | cons c rest ih =>
      intro seen
      by_cases hc : c ∈ seen
      · simpa [uniqueKeysAux, hc] using ih seen
      · rw [uniqueKeysAux, if_neg hc, List.nodup_cons]
        refine ⟨fun hmem => ?_, ih (c :: seen)⟩
        exact ((mem_uniqueKeysAux rest (c :: seen) c).mp hmem).2
          (List.mem_cons_self c seen)

/-- The counts stored in a column's frequency dictionary sum to the column
length (i.e. to the number of sequences). -/
theorem sumValues_colFrequencies (col : List Char) :
    (freqValues (colFrequencies col)).sum = (col.length : ℚ) := by
  unfold freqValues colFrequencies
  rw [List.map_map]
  have e : (Prod.snd ∘ fun ch : Char => (ch, (col.count ch : ℚ))) =
      fun ch => (col.count ch : ℚ) := rfl
  rw [e]
  have hnd : (uniqueKeys col).Nodup := nodup_uniqueKeysAux col []
  rw [← List.sum_toFinset _ hnd]
  have hset : (uniqueKeys col).toFinset = col.toFinset := by
    ext x
    simp [uniqueKeys, mem_uniqueKeysAux]
  rw [hset, ← Nat.cast_sum, List.sum_toFinset_count_eq_length]

/-- The lengths of the internal lists of `mask`. -/
theorem length_compute_frequencies (a : MSA) :
    (compute_frequencies a).length = a.ncols := by
  simp [compute_frequencies, MSA.cols, colsOfRows]

/-- `num_sequences`, read from the first column, is the sequence count. -/
theorem head_compute_frequencies (a : MSA) (h : a.ncols ≠ 0) :
    (freqValues ((compute_frequencies a).headD [])).sum = (a.seqs.length : ℚ) := by
  unfold compute_frequencies MSA.cols
  obtain ⟨k, hk⟩ := Nat.exists_eq_succ_of_ne_zero h
  rw [hk, colsOfRows_succ, List.map_cons]
  rw [List.headD_cons, sumValues_colFrequencies]
  simp

/-- A masked well-formed alignment is well-formed. -/
theorem WF_apply_mask (a : MSA) (m : List Bool) (hwf : a.WF)
    (hm : m.length = a.ncols) : (apply_mask a m).WF := by
  intro s hs
  rw [ncols_apply_mask a m hwf hm]
  obtain ⟨s0, hs0, rfl⟩ := List.mem_map.mp hs
  exact length_selectMask m s0.chars (by rw [hwf s0 hs0, hm])

/-- `_compute_gap_mask` as a single `map` with the total fixed up front. -/
theorem compute_gap_mask_eq (freqs : List FreqVec) (st : SeqType) (g : ℚ) :
    compute_gap_mask freqs st g =
      freqs.map (fun f =>
        decide (gapSum f st / (freqValues (freqs.headD [])).sum ≤ g)) := by
  unfold compute_gap_mask
  rw [List.map_map]
  rfl

/-- C8.  `mask` is idempotent: when `mask` succeeds on a well-formed
alignment, running it again with the same thresholds on the result succeeds
and returns the result unchanged — every retained column still passes both
the gap and the conservation threshold. -/
theorem mask_idempotent (a b : MSA) (g c : ℚ) (hwf : a.WF)
    (h : mask a g c = .ok b) : mask b g c = .ok b := by
  unfold mask at h
  by_cases hg : g < 0 ∨ 1 < g
  · rw [if_pos hg] at h; exact absurd h (by simp)
  rw [if_neg hg] at h
  by_cases hc : c < 0 ∨ 1 < c
  · rw [if_pos hc] at h; exact absurd h (by simp)
  rw [if_neg hc] at h
  by_cases hne : a.ncols = 0
  · rw [if_pos hne] at h; exact absurd h (by simp)
  rw [if_neg hne] at h
  dsimp only at h
  set m := maskCombined a g c with hm
  by_cases hz : (apply_mask a m).ncols = 0
  · rw [if_pos hz] at h; exact absurd h (by simp)
  rw [if_neg hz] at h
  have hb : b = apply_mask a m := (Except.ok.inj h).symm
  have hmlen : m.length = a.ncols := by
    rw [hm]
    unfold maskCombined maskGapMask maskConsMask
    rw [List.length_zipWith]
    rw [show (compute_gap_mask (compute_frequencies a) DNAType g).length =
      (compute_frequencies a).length by simp [compute_gap_mask]]
    rw [show (compute_conservation_mask (compute_frequencies a) DNAType c).length =
      (compute_frequencies a).length by
        simp [compute_conservation_mask, most_conserved]]
    rw [length_compute_frequencies, Nat.min_self]
  have hwfb : b.WF := hb ▸ WF_apply_mask a m hwf hmlen
  have hbne : b.ncols ≠ 0 := by rw [hb]; exact hz
  have hnseqs : b.seqs.length = a.seqs.length := by
    rw [hb]; simp [apply_mask]
  have hfreqb : compute_frequencies b = selectMask (compute_frequencies a) m := by
    rw [hb]
    unfold compute_frequencies
    rw [cols_apply_mask a m hwf hmlen, selectMask_map]
  have hna : (freqValues ((compute_frequencies a).headD [])).sum =
      (a.seqs.length : ℚ) := head_compute_frequencies a hne
  have hnb : (freqValues ((compute_frequencies b).headD [])).sum =
      (a.seqs.length : ℚ) := by
    rw [head_compute_frequencies b hbne, hnseqs]
  have hgapb : maskGapMask b g = selectMask (maskGapMask a g) m := by
    unfold maskGapMask
    rw [compute_gap_mask_eq, compute_gap_mask_eq, hnb, hna]
    rw [hfreqb, ← selectMask_map]
  have hconsb : maskConsMask b c = selectMask (maskConsMask a c) m := by
    unfold maskConsMask compute_conservation_mask most_conserved
    rw [hfreqb, ← selectMask_map, ← selectMask_map]
  have hcombb : maskCombined b g c = List.replicate (m.count true) true := by
    unfold maskCombined
    rw [hgapb, hconsb, ← selectMask_zipWith]
    rw [show List.zipWith (fun x y => x && y) (maskGapMask a g)
      (maskConsMask a c) = m from rfl]
    exact selectMask_self m
  have hncolsb : b.ncols = m.count true := by
    rw [hb]; exact ncols_apply_mask a m hwf hmlen
  have happl : apply_mask b (maskCombined b g c) = b := by
    rw [hcombb]
    unfold apply_mask
    have hseqs : b.seqs.map (fun s =>
        { s with chars := selectMask s.chars (List.replicate (m.count true) true) }) =
        b.seqs := by
      have hcongr : ∀ s ∈ b.seqs, ({ s with
          chars := selectMask s.chars (List.replicate (m.count true) true) } : DNASeq) = s := by
        intro s hs
        have : s.chars.length = m.count true := by rw [hwfb s hs, hncolsb]
        rw [selectMask_replicate_true (m.count true) s.chars this]
      rw [List.map_congr_left hcongr]
      exact List.map_id' b.seqs
    rw [hseqs]
  unfold mask
  rw [if_neg hg, if_neg hc, if_neg hbne]
  dsimp only
  rw [happl, if_neg hbne]

/-- C8, witness: the repository's `MaskTests.test_basic` alignment, masked
once to `{GA, GA, GC}`, is a fixed point of a second identical `mask`. -/
theorem mask_idempotent_witness :
    exAlnBasic.WF ∧ mask exAlnBasic (1/20) (3/10) = .ok exAlnBasicMasked ∧
      mask exAlnBasicMasked (1/20) (3/10) = .ok exAlnBasicMasked :=
  ⟨by decide, by decide,
    mask_idempotent exAlnBasic exAlnBasicMasked (1/20) (3/10)
      (by decide) (by decide)⟩

end Q2Alignment
